import Mathlib

/- Verification development for the habit-app repository: the date-grid
   generator, completion index, streak calculator (client common module,
   desktop client, server SSR path) and the server-side habit store
   (create / update / delete / toggle) together with tenant resolution.

   Modelling conventions:
   * A JavaScript `Date` value is modelled as `JSDate`: `day` is the local
     calendar day as an integer day index (the value observed through
     `getFullYear`/`getMonth`/`getDate`, i.e. the injective image of the
     `YYYY-MM-DD` rendering), and `time` is the time-of-day component
     (milliseconds since local midnight).  `setHours(0,0,0,0)` sets
     `time := 0`; `setDate(getDate() - k)` shifts `day` by `-k` and keeps
     `time`.  All functions are parametrised by a fixed `now` standing for
     the value of `new Date()` during the computation.
   * `formatDate` reads only the year/month/day fields, so it is modelled as
     the projection to `day`; two ISO `YYYY-MM-DD` strings are equal exactly
     when the underlying day indices are equal.
   * Client-side log records `{date, completed}` arriving as JSON are
     modelled with an integer day and a boolean completed flag (the wire
     value is the SQLite integer 0/1, whose JavaScript truthiness is exactly
     that boolean).
   * Server-side rows keep the SQLite representation: `completed` is an
     arbitrary `INTEGER` (JavaScript truthiness = "nonzero"), `date` is an
     opaque `TEXT` key taken verbatim from the request body, and AUTOINCREMENT
     primary keys are modelled by `nextHabitId` / `nextLogId` counters.
-/

namespace HabitApp

/-- Model of a JavaScript `Date`: calendar-day index plus time of day. -/
structure JSDate where
  day : Int
  time : Nat
  deriving DecidableEq, Repr

/-- Model of `date.setHours(0, 0, 0, 0)`: normalize to local midnight. -/
def setMidnight (d : JSDate) : JSDate := { d with time := 0 }

/-- Model of `getDaysAgo(days)` (common.js / main.js): `new Date()` shifted back by
`days` calendar days via `setDate`; the time-of-day of `now` is kept. -/
def getDaysAgo (now : JSDate) (days : Int) : JSDate := { now with day := now.day - days }

/-- Model of `formatDate(date)`: the `YYYY-MM-DD` string of the calendar day; being
an injective image of the day index it is modelled by the index itself. -/
def formatDate (d : JSDate) : Int := d.day

/-- Loop `for (let i = 6; i >= 1; i--) dates.push(getDaysAgo(i))` of
`getGridDates` in main.js: `gridLoopMain now n` lists the pushes for
`i = n, n-1, ..., 1` in push order. -/
def gridLoopMain (now : JSDate) : Nat → List JSDate
  | 0 => []
  | i + 1 => getDaysAgo now ((i : Int) + 1) :: gridLoopMain now i

/-- Model of `getGridDates()` in main.js: 6 past days then today at midnight. -/
def getGridDatesMain (now : JSDate) : List JSDate :=
  gridLoopMain now 6 ++ [setMidnight now]

/-- Loop `for (let i = 2; i >= 1; i--) dates.push(common.getDaysAgo(i))` of
`getGridDates` in mobile.js. -/
def gridLoopMobile (now : JSDate) : Nat → List JSDate
  | 0 => []
  | i + 1 => getDaysAgo now ((i : Int) + 1) :: gridLoopMobile now i

/-- Model of `getGridDates()` in mobile.js: 2 past days then today at midnight. -/
def getGridDatesMobile (now : JSDate) : List JSDate :=
  gridLoopMobile now 2 ++ [setMidnight now]

/-- Loop of `getGridDates()` in server/index.js, which inlines the body of
`getDaysAgo` (`const date = new Date(); date.setDate(date.getDate() - i)`). -/
def gridLoopServer (now : JSDate) : Nat → List JSDate
  | 0 => []
  | i + 1 => { now with day := now.day - ((i : Int) + 1) } :: gridLoopServer now i

/-- Model of `getGridDates()` in server/index.js: 6 past days then today at midnight. -/
def getGridDatesServer (now : JSDate) : List JSDate :=
  gridLoopServer now 6 ++ [setMidnight now]

/-- Client-side log record as received from the server JSON. -/
structure LogEntry where
  date : Int
  completed : Bool
  deriving DecidableEq, Repr

/-- Model of `isCompletedOnDate(logs, date)` (common.js and, identically,
server/index.js): find the first entry whose date string equals
`formatDate(date)` and return the truthiness of `log && log.completed`. -/
def isCompletedOnDate (logs : List LogEntry) (date : JSDate) : Bool :=
  match logs.find? (fun l => l.date == formatDate date) with
  | some log => log.completed
  | none => false

/-- The 90-iteration scan of `calculateCurrentStreak` in common.js, with the
remaining iteration count as fuel: look up `checkDate` among the
completed-and-sorted logs; on a hit count one and step one day back, otherwise
break. -/
def streakLoopCommon (sortedLogs : List LogEntry) (checkDate : JSDate) : Nat → Nat
  | 0 => 0
  | fuel + 1 =>
    match sortedLogs.find? (fun l => l.date == formatDate checkDate) with
    | some log =>
      if log.completed then
        streakLoopCommon sortedLogs { checkDate with day := checkDate.day - 1 } fuel + 1
      else 0
    | none => 0

/-- Model of `calculateCurrentStreak(logs)` in common.js (src/unnamed/part_000).
The JavaScript `.sort((a, b) => b.date.localeCompare(a.date))` is a stable sort
descending by date string, modelled by `mergeSort`. -/
def calculateCurrentStreakCommon (now : JSDate) (logs : List LogEntry) : Nat :=
  if logs.isEmpty then 0
  else
    streakLoopCommon
      ((logs.filter (fun l => l.completed)).mergeSort (fun a b => decide (b.date ≤ a.date)))
      (setMidnight now) 90

/-- The scan loop of `calculateCurrentStreak` in main.js (verbatim replica). -/
def streakLoopMain (sortedLogs : List LogEntry) (checkDate : JSDate) : Nat → Nat
  | 0 => 0
  | fuel + 1 =>
    match sortedLogs.find? (fun l => l.date == formatDate checkDate) with
    | some log =>
      if log.completed then
        streakLoopMain sortedLogs { checkDate with day := checkDate.day - 1 } fuel + 1
      else 0
    | none => 0

/-- Model of `calculateCurrentStreak(logs)` in main.js (verbatim replica). -/
def calculateCurrentStreakMain (now : JSDate) (logs : List LogEntry) : Nat :=
  if logs.isEmpty then 0
  else
    streakLoopMain
      ((logs.filter (fun l => l.completed)).mergeSort (fun a b => decide (b.date ≤ a.date)))
      (setMidnight now) 90

/-- The scan loop of `calculateCurrentStreak` in server/index.js (verbatim replica). -/
def streakLoopServer (sortedLogs : List LogEntry) (checkDate : JSDate) : Nat → Nat
  | 0 => 0
  | fuel + 1 =>
    match sortedLogs.find? (fun l => l.date == formatDate checkDate) with
    | some log =>
      if log.completed then
        streakLoopServer sortedLogs { checkDate with day := checkDate.day - 1 } fuel + 1
      else 0
    | none => 0

/-- Model of `calculateCurrentStreak(logs)` in server/index.js (verbatim replica). -/
def calculateCurrentStreakServer (now : JSDate) (logs : List LogEntry) : Nat :=
  if logs.isEmpty then 0
  else
    streakLoopServer
      ((logs.filter (fun l => l.completed)).mergeSort (fun a b => decide (b.date ≤ a.date)))
      (setMidnight now) 90

/-- Specification-side predicate for the streak property: some completed log
entry exists for calendar day `d`. -/
def completedOn (logs : List LogEntry) (d : Int) : Bool :=
  logs.any (fun l => l.date == d && l.completed)

/-! ## Server-side habit store -/

/-- Row of the `habits` table. -/
structure Habit where
  id : Int
  name : String
  description : String
  created_at : Int
  order_position : Int
  deriving DecidableEq, Repr

/-- Row of the `habit_logs` table (`completed` is an SQLite INTEGER; JavaScript
reads it with truthiness, i.e. "nonzero"). -/
structure HabitLog where
  id : Int
  habit_id : Int
  date : String
  completed : Int
  notes : Option String
  deriving DecidableEq, Repr

/-- One tenant's database: the two tables plus the AUTOINCREMENT counters. -/
structure TenantState where
  habits : List Habit
  logs : List HabitLog
  nextHabitId : Int
  nextLogId : Int
  deriving DecidableEq, Repr

/-- The `WHERE habit_id = ? AND date = ?` row filter used by the toggle route. -/
def logKeyMatches (hid : Int) (d : String) (l : HabitLog) : Bool :=
  l.habit_id == hid && l.date == d

/-- Model of `POST /api/logs/toggle` (server/index.js): select the first row for
`(habit_id, date)`; if present, set `completed` on every matching row to
`currentCompleted ? 0 : 1` and answer the new value; otherwise insert a fresh
row with `completed = 1` and answer `1`.  No lookup against `habits` happens. -/
def toggleLog (s : TenantState) (hid : Int) (d : String) : TenantState × Int :=
  match s.logs.find? (logKeyMatches hid d) with
  | some existing =>
    let newCompleted : Int := if existing.completed ≠ 0 then 0 else 1
    ({ s with
        logs := s.logs.map (fun l =>
          if logKeyMatches hid d l then { l with completed := newCompleted } else l) },
      newCompleted)
  | none =>
    ({ s with
        logs := s.logs ++ [⟨s.nextLogId, hid, d, 1, none⟩],
        nextLogId := s.nextLogId + 1 },
      1)

/-- Completion state of `(habit_id, date)` in a tenant database: the truthiness
of the `completed` column of its (unique, if any) log row. -/
def completionState (s : TenantState) (hid : Int) (d : String) : Bool :=
  match s.logs.find? (logKeyMatches hid d) with
  | some l => l.completed != 0
  | none => false

/-- Model of `POST /api/habits` (server/index.js).  `!name` is true exactly for a
missing or empty name.  `SELECT MAX(order_position) FROM habits` yields NULL iff
the table is empty (every stored row carries the integer position the server
wrote), giving `newOrder = 0`; otherwise `max + 1`.  On success the reply carries
the fresh row. -/
def createHabit (s : TenantState) (name? : Option String) (description? : Option String)
    (now : Int) : Except String (TenantState × Habit) :=
  match name? with
  | none => .error "Name is required"
  | some name =>
    if name = "" then .error "Name is required"
    else
      let newOrder : Int :=
        match (s.habits.map (fun h => h.order_position)).max? with
        | none => 0
        | some m => m + 1
      let newHabit : Habit := ⟨s.nextHabitId, name, description?.getD "", now, newOrder⟩
      .ok ({ s with habits := s.habits ++ [newHabit], nextHabitId := s.nextHabitId + 1 },
           newHabit)

/-- Model of `PUT /api/habits/:id` (server/index.js): run
`UPDATE habits SET name = ?, description = ? WHERE id = ?` and reply
`{success: true}` unconditionally. -/
def updateHabit (s : TenantState) (id : Int) (name : String) (description? : Option String) :
    TenantState × Bool :=
  ({ s with habits := s.habits.map (fun h =>
      if h.id == id then { h with name := name, description := description?.getD "" } else h) },
    true)

/-- Model of `DELETE /api/habits/:id` (server/index.js): run
`DELETE FROM habits WHERE id = ?`.  The schema declares
`FOREIGN KEY (habit_id) REFERENCES habits(id) ON DELETE CASCADE`, but no code
path ever executes `PRAGMA foreign_keys = ON`, and SQLite (as shipped in
sql.js) keeps foreign-key enforcement OFF by default per connection — so the
declared cascade never fires and `habit_logs` rows are left untouched. -/
def deleteHabit (s : TenantState) (id : Int) : TenantState :=
  { s with habits := s.habits.filter (fun h => ¬ h.id == id) }

/-- Modelled from the spec: the cascade behaviour §4.5 `delete(id)` describes
("removes habit and cascades removal of its logs"), i.e. what the schema's
`ON DELETE CASCADE` clause would do if foreign-key enforcement were enabled. -/
def deleteHabitCascadeSpec (s : TenantState) (id : Int) : TenantState :=
  { s with
      habits := s.habits.filter (fun h => ¬ h.id == id),
      logs := s.logs.filter (fun l => ¬ l.habit_id == id) }

/-- Character class `[a-zA-Z0-9-_]` of the tenant sanitizer. -/
def isAllowedTenantChar (c : Char) : Bool :=
  ('a' ≤ c && c ≤ 'z') || ('A' ≤ c && c ≤ 'Z') || ('0' ≤ c && c ≤ '9') || c == '-' || c == '_'

/-- Model of `tenant.replace(/[^a-zA-Z0-9-_]/g, '')`: drop every character
outside the allowed class. -/
def sanitizeTenant (t : String) : String :=
  ⟨t.data.filter isAllowedTenantChar⟩

/-- Model of the validation prefix of `getTenantDB(tenant)` (server/index.js):
reject an empty name; reject when sanitization would change the string;
otherwise resolve to the unchanged identifier. -/
def getTenantDBValidate (t : String) : Except String String :=
  if t.length = 0 then .error "Invalid tenant name"
  else if sanitizeTenant t ≠ t then
    .error "Tenant name can only contain letters, numbers, hyphens, and underscores"
  else .ok t

/-! ## Claim C2: the three streak replicas agree -/

lemma streakLoopMain_eq_common (sl : List LogEntry) :
    ∀ (fuel : Nat) (d : JSDate), streakLoopMain sl d fuel = streakLoopCommon sl d fuel := by
  intro fuel
  induction fuel with
  | zero => intro d; rfl
  | succ n ih =>
    intro d
    simp only [streakLoopMain, streakLoopCommon]
    cases hfind : sl.find? (fun l => l.date == formatDate d) with
    | none => rfl
    | some log => by_cases hc : log.completed <;> simp [hc, ih]

lemma streakLoopServer_eq_common (sl : List LogEntry) :
    ∀ (fuel : Nat) (d : JSDate), streakLoopServer sl d fuel = streakLoopCommon sl d fuel := by
  intro fuel
  induction fuel with
  | zero => intro d; rfl
  | succ n ih =>
    intro d
    simp only [streakLoopServer, streakLoopCommon]
    cases hfind : sl.find? (fun l => l.date == formatDate d) with
    | none => rfl
    | some log => by_cases hc : log.completed <;> simp [hc, ih]

/-- Claim C2: the three replicated streak implementations — the shared client
module's, the desktop client's and the server SSR path's
`calculateCurrentStreak` — are extensionally equal: for every log list and
every fixed today, all three return the same streak value. -/
theorem claim2_streak_replicas_agree :
    ∀ (now : JSDate) (logs : List LogEntry),
      calculateCurrentStreakMain now logs = calculateCurrentStreakCommon now logs ∧
      calculateCurrentStreakServer now logs = calculateCurrentStreakCommon now logs := by
  intro now logs
  unfold calculateCurrentStreakMain calculateCurrentStreakServer calculateCurrentStreakCommon
  by_cases h : logs.isEmpty <;>
    simp [h, streakLoopMain_eq_common, streakLoopServer_eq_common]

/-! ## Claim C3: the date-grid generator -/

/-- Claim C3, counterexample: when `now` is not exactly midnight (here: one
millisecond past midnight of day 0), the generated grids contain entries that
are not normalized to midnight local time — only the trailing today entry is. -/
theorem claim3_grid_counterexample :
    (¬ ∀ d ∈ getGridDatesMain ⟨0, 1⟩, d.time = 0) ∧
    (¬ ∀ d ∈ getGridDatesMobile ⟨0, 1⟩, d.time = 0) ∧
    (¬ ∀ d ∈ getGridDatesServer ⟨0, 1⟩, d.time = 0) := by
  decide

/-- Claim C3 as amended: for each window size W used by the program (3 for
mobile, 7 for desktop and SSR), given a fixed now the generator returns exactly
W dates on strictly increasing consecutive calendar days with the last entry
equal to today; the last entry is normalized to midnight local time, while the
earlier entries keep the time-of-day of now (their calendar-day component is
nevertheless the correct one). -/
theorem claim3_grid_dates_amended :
    ∀ now : JSDate,
      getGridDatesMain now =
        [⟨now.day - 6, now.time⟩, ⟨now.day - 5, now.time⟩, ⟨now.day - 4, now.time⟩,
         ⟨now.day - 3, now.time⟩, ⟨now.day - 2, now.time⟩, ⟨now.day - 1, now.time⟩,
         ⟨now.day, 0⟩] ∧
      getGridDatesMobile now =
        [⟨now.day - 2, now.time⟩, ⟨now.day - 1, now.time⟩, ⟨now.day, 0⟩] ∧
      getGridDatesServer now =
        [⟨now.day - 6, now.time⟩, ⟨now.day - 5, now.time⟩, ⟨now.day - 4, now.time⟩,
         ⟨now.day - 3, now.time⟩, ⟨now.day - 2, now.time⟩, ⟨now.day - 1, now.time⟩,
         ⟨now.day, 0⟩] := by
  intro now
  refine ⟨?_, ?_, ?_⟩ <;> rfl

/-! ## Claim C9: update on an absent id is a reported-success no-op -/

/-- Claim C9: for every tenant state, updating a habit id that does not exist in
that tenant reports success (no NotFound) and leaves every habit and every log
row unchanged. -/
theorem claim9_update_absent_id (s : TenantState) (id : Int) (name : String)
    (description? : Option String) (h : ∀ hb ∈ s.habits, hb.id ≠ id) :
    updateHabit s id name description? = (s, true) := by
  unfold updateHabit
  have hmap : s.habits.map (fun hb =>
      if hb.id == id then { hb with name := name, description := description?.getD "" }
      else hb) = s.habits := by
    conv_rhs => rw [← List.map_id s.habits]
    apply List.map_congr_left
    intro a ha
    have hne : (a.id == id) = false := by simpa using h a ha
    simp [hne]
  rw [hmap]

/-- Witness for claim C9 at a concrete one-habit tenant and the absent id 5. -/
theorem claim9_witness :
    updateHabit ⟨[⟨1, "Read", "", 0, 0⟩], [], 2, 1⟩ 5 "X" none
      = (⟨[⟨1, "Read", "", 0, 0⟩], [], 2, 1⟩, true) :=
  claim9_update_absent_id ⟨[⟨1, "Read", "", 0, 0⟩], [], 2, 1⟩ 5 "X" none (by decide)

/-! ## Claim C8: tenant resolution -/

lemma string_length_eq_zero_iff (t : String) : t.length = 0 ↔ t = "" := by
  constructor
  · intro h
    apply String.ext
    have hd : t.data = [] := List.length_eq_zero.mp h
    simp [hd]
  · intro h
    subst h
    rfl

lemma sanitizeTenant_eq_self_iff (t : String) :
    sanitizeTenant t = t ↔ ∀ c ∈ t.data, isAllowedTenantChar c = true := by
  rw [String.ext_iff]
  simp [sanitizeTenant, List.filter_eq_self]

/-- Claim C8: the tenant resolver fails (with a validation error) iff the raw
string is empty or contains a character outside letters, digits, hyphen and
underscore; a nonempty string made only of allowed characters is accepted
unchanged as the namespace identifier. -/
theorem claim8_tenant_validation (t : String) :
    ((getTenantDBValidate t).isOk = false ↔
      t = "" ∨ ∃ c ∈ t.data, isAllowedTenantChar c = false) ∧
    ((t ≠ "" ∧ ∀ c ∈ t.data, isAllowedTenantChar c = true) →
      getTenantDBValidate t = .ok t) := by
  constructor
  · unfold getTenantDBValidate
    split_ifs with h0 h1
    · simp only [Except.isOk, Except.toBool]
      exact ⟨fun _ => Or.inl ((string_length_eq_zero_iff t).mp h0), fun _ => trivial⟩
    · have hbad : ¬ ∀ c ∈ t.data, isAllowedTenantChar c = true :=
        fun hall => h1 ((sanitizeTenant_eq_self_iff t).mpr hall)
      push_neg at hbad
      obtain ⟨c, hc, hcf⟩ := hbad
      simp only [Except.isOk, Except.toBool]
      exact ⟨fun _ => Or.inr ⟨c, hc, by simpa using hcf⟩, fun _ => trivial⟩
    · have hne : t ≠ "" := fun he => h0 ((string_length_eq_zero_iff t).mpr he)
      have hall := (sanitizeTenant_eq_self_iff t).mp (not_not.mp h1)
      simp only [Except.isOk, Except.toBool]
      constructor
      · intro hfalse; cases hfalse
      · rintro (he | ⟨c, hc, hcf⟩)
        · exact absurd he hne
        · exact absurd (hall c hc) (by simp [hcf])
  · rintro ⟨hne, hall⟩
    have h0 : ¬ t.length = 0 := fun h => hne ((string_length_eq_zero_iff t).mp h)
    have h1 : sanitizeTenant t = t := (sanitizeTenant_eq_self_iff t).mpr hall
    simp [getTenantDBValidate, h0, h1]

/-- Witness for claim C8: the spec's example identifier is accepted unchanged. -/
theorem claim8_witness :
    getTenantDBValidate "tenant-1_ok" = .ok "tenant-1_ok" :=
  (claim8_tenant_validation "tenant-1_ok").2 ⟨by decide, by decide⟩

/-! ## Claim C5: habit deletion does not actually cascade -/

/-- Claim C5, failing input: a tenant holding habit 1 with a single log row.
`DELETE /api/habits/1` removes the habit but — because foreign-key enforcement
was never switched on with `PRAGMA foreign_keys = ON`, so the schema's
`ON DELETE CASCADE` never fires — one `habit_logs` row for habit 1 remains,
where the claim (and the spec-intended cascade, third conjunct) require zero. -/
theorem claim5_delete_leaves_orphan_logs :
    (deleteHabit ⟨[⟨1, "Read", "", 0, 0⟩], [⟨1, 1, "2024-01-01", 1, none⟩], 2, 2⟩ 1).habits = []
    ∧ ((deleteHabit ⟨[⟨1, "Read", "", 0, 0⟩], [⟨1, 1, "2024-01-01", 1, none⟩], 2, 2⟩ 1).logs.filter
        (fun l => l.habit_id == 1)).length = 1
    ∧ ((deleteHabitCascadeSpec
          ⟨[⟨1, "Read", "", 0, 0⟩], [⟨1, 1, "2024-01-01", 1, none⟩], 2, 2⟩ 1).logs.filter
        (fun l => l.habit_id == 1)).length = 0 := by
  decide

/-! ## Claim C10: toggling never validates the habit id -/

/-- Claim C10, counterexample to the universally quantified statement: in a
tenant whose log table already holds a row for the nonexistent habit 2 (such a
state is reachable by a previous toggle), a further toggle flips that row
instead of inserting, and returns 0, not 1. -/
theorem claim10_counterexample :
    (∀ hb ∈ (⟨[], [⟨1, 2, "2024-01-01", 1, none⟩], 1, 2⟩ : TenantState).habits, hb.id ≠ 2)
    ∧ (toggleLog ⟨[], [⟨1, 2, "2024-01-01", 1, none⟩], 1, 2⟩ 2 "2024-01-01").2 ≠ 1 := by
  decide

/-- Claim C10 as amended: toggleLog performs no habit-id validation — for every
tenant state, every habit id absent from the habits table and every date with
no pre-existing log row for that pair, the toggle succeeds (it never reports
NotFound), inserts a log row with completed = 1 referencing the nonexistent
habit, and returns completed = 1. -/
theorem claim10_toggle_without_habit (s : TenantState) (hid : Int) (d : String)
    (habsent : ∀ hb ∈ s.habits, hb.id ≠ hid)
    (hnolog : s.logs.find? (logKeyMatches hid d) = none) :
    toggleLog s hid d =
      ({ s with logs := s.logs ++ [⟨s.nextLogId, hid, d, 1, none⟩],
                nextLogId := s.nextLogId + 1 }, 1)
    ∧ completionState (toggleLog s hid d).1 hid d = true := by
  have heq : toggleLog s hid d =
      ({ s with logs := s.logs ++ [⟨s.nextLogId, hid, d, 1, none⟩],
                nextLogId := s.nextLogId + 1 }, 1) := by
    unfold toggleLog
    rw [hnolog]
  refine ⟨heq, ?_⟩
  rw [heq]
  unfold completionState
  rw [List.find?_append, hnolog]
  simp [logKeyMatches]

/-- Witness for claim C10 at an empty tenant and habit id 7. -/
theorem claim10_witness :
    toggleLog ⟨[], [], 1, 1⟩ 7 "2024-01-02"
      = (⟨[], [⟨1, 7, "2024-01-02", 1, none⟩], 1, 2⟩, 1)
    ∧ completionState (toggleLog ⟨[], [], 1, 1⟩ 7 "2024-01-02").1 7 "2024-01-02" = true := by
  have h := claim10_toggle_without_habit ⟨[], [], 1, 1⟩ 7 "2024-01-02" (by decide) (by decide)
  exact ⟨h.1, h.2⟩

/-! ## Claim C4: toggle semantics -/

lemma logKeyMatches_update (hid : Int) (d : String) (c : Int) (l : HabitLog) :
    logKeyMatches hid d
      (if logKeyMatches hid d l then { l with completed := c } else l)
      = logKeyMatches hid d l := by
  by_cases h : logKeyMatches hid d l = true
  · rw [if_pos h]
    rfl
  · rw [if_neg h]

/-- Toggling always flips the completion state of the touched `(habit_id, date)`
pair: an existing row has the truthiness of its `completed` column inverted,
and a missing row comes into existence with `completed = 1`. -/
lemma toggle_flips_completionState (s : TenantState) (hid : Int) (d : String) :
    completionState (toggleLog s hid d).1 hid d = ! completionState s hid d := by
  cases hfind : s.logs.find? (logKeyMatches hid d) with
  | none =>
    simp only [toggleLog, completionState, hfind]
    rw [List.find?_append, hfind]
    simp [logKeyMatches]
  | some ex =>
    have hex : logKeyMatches hid d ex = true := List.find?_some hfind
    simp only [toggleLog, completionState, hfind]
    rw [List.find?_map]
    have hpres : (logKeyMatches hid d) ∘
        (fun l => if logKeyMatches hid d l then
          { l with completed := if ex.completed ≠ 0 then 0 else 1 } else l)
        = logKeyMatches hid d :=
      funext fun l => logKeyMatches_update hid d _ l
    rw [hpres, hfind]
    simp only [Option.map_some', hex, if_pos]
    by_cases hc : ex.completed = 0 <;> simp [hc]

/-- Claim C4: for every tenant state, `toggleLog(habit_id, date)` flips the
completion state of the `(habit_id, date)` pair (updating the existing row when
one exists, without inserting), otherwise inserts a new row with
`completed = 1`; it returns the resulting completion state; and two successive
toggles on the same pair restore the original completion state. -/
theorem claim4_toggle_semantics (s : TenantState) (hid : Int) (d : String) :
    completionState (toggleLog s hid d).1 hid d = ! completionState s hid d ∧
    (toggleLog s hid d).2
      = (if completionState (toggleLog s hid d).1 hid d then 1 else 0) ∧
    ((∃ l ∈ s.logs, logKeyMatches hid d l = true) →
      ((toggleLog s hid d).1.logs.length = s.logs.length ∧
        ∀ l ∈ s.logs, logKeyMatches hid d l = false → l ∈ (toggleLog s hid d).1.logs)) ∧
    (s.logs.find? (logKeyMatches hid d) = none →
      ((toggleLog s hid d).1.logs = s.logs ++ [⟨s.nextLogId, hid, d, 1, none⟩] ∧
        (toggleLog s hid d).2 = 1)) ∧
    completionState (toggleLog (toggleLog s hid d).1 hid d).1 hid d
      = completionState s hid d := by
  refine ⟨toggle_flips_completionState s hid d, ?_, ?_, ?_, ?_⟩
  · rw [toggle_flips_completionState s hid d]
    cases hfind : s.logs.find? (logKeyMatches hid d) with
    | none =>
      simp [toggleLog, completionState, hfind]
    | some ex =>
      simp only [toggleLog, completionState, hfind]
      by_cases hc : ex.completed = 0 <;> simp [hc]
  · intro hex
    have hsome : (s.logs.find? (logKeyMatches hid d)).isSome := by
      rw [List.find?_isSome]
      obtain ⟨l, hl, hpl⟩ := hex
      exact ⟨l, hl, hpl⟩
    cases hfind : s.logs.find? (logKeyMatches hid d) with
    | none => rw [hfind] at hsome; cases hsome
    | some ex =>
      constructor
      · simp only [toggleLog, hfind]
        exact List.length_map _ _
      · intro l hl hlf
        simp only [toggleLog, hfind]
        refine List.mem_map.mpr ⟨l, hl, ?_⟩
        simp [hlf]
  · intro hfind
    simp [toggleLog, hfind]
  · rw [toggle_flips_completionState, toggle_flips_completionState, Bool.not_not]

/-- Witness for claim C4 at a concrete tenant holding one uncompleted row for
habit 3: the toggle flips it to completed without inserting a second row. -/
theorem claim4_witness :
    completionState
      (toggleLog ⟨[], [⟨1, 3, "2024-01-05", 0, none⟩], 1, 2⟩ 3 "2024-01-05").1
      3 "2024-01-05" = true ∧
    (toggleLog ⟨[], [⟨1, 3, "2024-01-05", 0, none⟩], 1, 2⟩ 3 "2024-01-05").1.logs.length = 1 := by
  have h := claim4_toggle_semantics ⟨[], [⟨1, 3, "2024-01-05", 0, none⟩], 1, 2⟩ 3 "2024-01-05"
  constructor
  · rw [h.1]; decide
  · exact (h.2.2.1 ⟨⟨1, 3, "2024-01-05", 0, none⟩, by decide, by decide⟩).1

/-! ## Claim C6: the completion index -/

/-- Claim C6, counterexample to the universally quantified statement: on a log
list holding two entries for the same date — the first uncompleted, the second
completed (a shape the per-habit UNIQUE(habit_id, date) constraint rules out in
the store, but the claim quantifies over every list) — the first-match lookup
answers false although a completed matching entry exists. -/
theorem claim6_counterexample :
    ¬ ((isCompletedOnDate [⟨0, false⟩, ⟨0, true⟩] ⟨0, 0⟩) = true ↔
        ∃ l ∈ ([⟨0, false⟩, ⟨0, true⟩] : List LogEntry),
          l.date = formatDate ⟨0, 0⟩ ∧ l.completed = true) := by
  decide

/-- Claim C6 as amended: on every log list with at most one entry per date
(the data-model invariant guaranteed by UNIQUE(habit_id, date)), the completion
index answers true iff a log entry for the target date exists with its
completed flag set; and on every list whatsoever — duplicate dates or not —
absence of any entry matching the date yields false, an ordinary value, not an
error. -/
theorem claim6_completion_index (logs : List LogEntry) (date : JSDate) :
    ((logs.map (fun l => l.date)).Nodup →
      (isCompletedOnDate logs date = true ↔
        ∃ l ∈ logs, l.date = formatDate date ∧ l.completed = true)) ∧
    ((∀ l ∈ logs, l.date ≠ formatDate date) → isCompletedOnDate logs date = false) := by
  cases hfind : logs.find? (fun l => l.date == formatDate date) with
  | none =>
    have hno : ∀ l ∈ logs, l.date ≠ formatDate date := by
      intro l hl
      have := List.find?_eq_none.mp hfind l hl
      simpa using this
    constructor
    · intro _
      simp only [isCompletedOnDate, hfind]
      constructor
      · intro h; cases h
      · rintro ⟨l, hl, hld, _⟩
        exact absurd hld (hno l hl)
    · intro _
      simp only [isCompletedOnDate, hfind]
  | some log =>
    have hmem : log ∈ logs := List.mem_of_find?_eq_some hfind
    have hdate : log.date = formatDate date := by
      have := List.find?_some hfind
      simpa using this
    constructor
    · intro hnd
      simp only [isCompletedOnDate, hfind]
      constructor
      · intro hc
        exact ⟨log, hmem, hdate, hc⟩
      · rintro ⟨l, hl, hld, hlc⟩
        have : l = log :=
          List.inj_on_of_nodup_map hnd hl hmem (hld.trans hdate.symm)
        exact this ▸ hlc
    · intro hno
      exact absurd hdate (hno log hmem)

/-- Witness for claim C6: a singleton completed log answers true via the
duplicate-free iff, and a duplicate-date list with no entry for the target
date answers false via the unconditional absence clause. -/
theorem claim6_witness :
    isCompletedOnDate [⟨0, true⟩] ⟨0, 0⟩ = true ∧
    isCompletedOnDate [⟨1, true⟩, ⟨1, false⟩] ⟨0, 0⟩ = false := by
  constructor
  · exact ((claim6_completion_index [⟨0, true⟩] ⟨0, 0⟩).1 (by decide)).mpr
      ⟨⟨0, true⟩, by decide, by decide, by decide⟩
  · exact (claim6_completion_index [⟨1, true⟩, ⟨1, false⟩] ⟨0, 0⟩).2 (by decide)

/-! ## Claim C7: habit creation -/

lemma createHabit_ok (s : TenantState) (nm : String) (hne : nm ≠ "")
    (description? : Option String) (now : Int) :
    createHabit s (some nm) description? now =
      .ok ({ s with
              habits := s.habits ++
                [⟨s.nextHabitId, nm, description?.getD "", now,
                  match (s.habits.map (fun h => h.order_position)).max? with
                  | none => 0
                  | some m => m + 1⟩],
              nextHabitId := s.nextHabitId + 1 },
            ⟨s.nextHabitId, nm, description?.getD "", now,
              match (s.habits.map (fun h => h.order_position)).max? with
              | none => 0
              | some m => m + 1⟩) := by
  simp [createHabit, hne]

/-- Claim C7: creating a habit fails with a validation error on an empty or
missing name, leaving the tenant state untouched (the handler returns before
any write); otherwise the new habit is appended with order_position equal to
the current maximum plus one, or 0 when no habits exist — so in an empty tenant
the first creation gets position 0 and a second one gets position 1. -/
theorem claim7_create_habit (s : TenantState) (name? : Option String)
    (description? : Option String) (now : Int) :
    ((name? = none ∨ name? = some "") →
      createHabit s name? description? now = .error "Name is required") ∧
    (∀ nm, name? = some nm → nm ≠ "" →
      ∃ s' h', createHabit s name? description? now = .ok (s', h') ∧
        s'.habits = s.habits ++ [h'] ∧ s'.logs = s.logs ∧ h'.name = nm ∧
        (s.habits = [] → h'.order_position = 0) ∧
        (∀ g ∈ s.habits, g.order_position < h'.order_position) ∧
        (s.habits ≠ [] → ∃ g ∈ s.habits, h'.order_position = g.order_position + 1)) ∧
    (s.habits = [] → ∀ n1 n2 : String, n1 ≠ "" → n2 ≠ "" →
      ∃ s1 h1 s2 h2,
        createHabit s (some n1) description? now = .ok (s1, h1) ∧ h1.order_position = 0 ∧
        createHabit s1 (some n2) description? now = .ok (s2, h2) ∧ h2.order_position = 1) := by
  refine ⟨?_, ?_, ?_⟩
  · rintro (rfl | rfl) <;> simp [createHabit]
  · rintro nm rfl hne
    refine ⟨_, _, createHabit_ok s nm hne description? now, rfl, rfl, rfl, ?_, ?_, ?_⟩
    · intro hnil
      simp [hnil]
    · intro g hg
      cases hmax : (s.habits.map (fun h => h.order_position)).max? with
      | none =>
        have : s.habits = [] := List.map_eq_nil_iff.mp (List.max?_eq_none_iff.mp hmax)
        rw [this] at hg
        cases hg
      | some m =>
        have hle : ∀ b ∈ s.habits.map (fun h => h.order_position), b ≤ m :=
          (List.max?_le_iff (fun a b c => max_le_iff) hmax).mp le_rfl
        have hgle : g.order_position ≤ m := hle _ (List.mem_map_of_mem _ hg)
        simp only [hmax]
        omega
    · intro hnonnil
      cases hmax : (s.habits.map (fun h => h.order_position)).max? with
      | none =>
        exact absurd (List.map_eq_nil_iff.mp (List.max?_eq_none_iff.mp hmax)) hnonnil
      | some m =>
        have hmem : m ∈ s.habits.map (fun h => h.order_position) :=
          List.max?_mem max_choice hmax
        obtain ⟨g, hg, hgp⟩ := List.mem_map.mp hmem
        refine ⟨g, hg, ?_⟩
        simp only [hmax]
        omega
  · intro hnil n1 n2 hn1 hn2
    obtain ⟨habs, lg, nh, nl⟩ := s
    have hnil' : habs = [] := hnil
    subst hnil'
    refine ⟨⟨[⟨nh, n1, description?.getD "", now, 0⟩], lg, nh + 1, nl⟩,
            ⟨nh, n1, description?.getD "", now, 0⟩,
            ⟨[⟨nh, n1, description?.getD "", now, 0⟩,
              ⟨nh + 1, n2, description?.getD "", now, 1⟩], lg, nh + 1 + 1, nl⟩,
            ⟨nh + 1, n2, description?.getD "", now, 1⟩,
            ?_, rfl, ?_, rfl⟩
    · exact createHabit_ok ⟨[], lg, nh, nl⟩ n1 hn1 description? now
    · exact createHabit_ok ⟨[⟨nh, n1, description?.getD "", now, 0⟩], lg, nh + 1, nl⟩ n2 hn2
        description? now

/-- Witness for claim C7: an empty tenant rejects a missing name and accepts
the name "Read". -/
theorem claim7_witness :
    createHabit ⟨[], [], 1, 1⟩ none none 0 = .error "Name is required" ∧
    (createHabit ⟨[], [], 1, 1⟩ (some "Read") none 0).isOk = true := by
  refine ⟨(claim7_create_habit ⟨[], [], 1, 1⟩ none none 0).1 (Or.inl rfl), ?_⟩
  obtain ⟨s', h', heq, _⟩ :=
    (claim7_create_habit ⟨[], [], 1, 1⟩ (some "Read") none 0).2.1 "Read" rfl (by decide)
  rw [heq]
  rfl

/-! ## Claim C1: the streak calculator -/

lemma completedOn_iff_sorted_mem (logs : List LogEntry) (x : Int) :
    completedOn logs x = true ↔
      ∃ l ∈ (logs.filter (fun l => l.completed)).mergeSort
          (fun a b => decide (b.date ≤ a.date)), l.date = x := by
  simp only [completedOn, List.any_eq_true, List.mem_mergeSort, List.mem_filter,
    Bool.and_eq_true, beq_iff_eq]
  constructor
  · rintro ⟨l, hl, hld, hlc⟩
    exact ⟨l, ⟨hl, hlc⟩, hld⟩
  · rintro ⟨l, ⟨hl, hlc⟩, hld⟩
    exact ⟨l, hl, hld, hlc⟩

lemma sorted_all_completed (logs : List LogEntry) :
    ∀ l ∈ (logs.filter (fun l => l.completed)).mergeSort
        (fun a b => decide (b.date ≤ a.date)), l.completed = true := by
  intro l hl
  exact (List.mem_filter.mp (List.mem_mergeSort.mp hl)).2

/-- Characterization of the backward scan: for any log list `sl` of completed
entries that represents `completedOn logs` membership-wise, the loop result `n`
is at most the fuel, every one of the `n` scanned days (walking backward from
`d`) has a completed entry, and — unless the fuel cap was hit — the day right
after the streak has none. -/
lemma streakLoopCommon_spec (logs : List LogEntry) (sl : List LogEntry)
    (hall : ∀ l ∈ sl, l.completed = true)
    (hmem : ∀ x : Int, completedOn logs x = true ↔ ∃ l ∈ sl, l.date = x) :
    ∀ (fuel : Nat) (d : JSDate),
      streakLoopCommon sl d fuel ≤ fuel ∧
      (∀ k < streakLoopCommon sl d fuel, completedOn logs (d.day - (k : Int)) = true) ∧
      (streakLoopCommon sl d fuel < fuel →
        completedOn logs (d.day - (streakLoopCommon sl d fuel : Int)) = false) := by
  intro fuel
  induction fuel with
  | zero =>
    intro d
    refine ⟨Nat.le_refl 0, ?_, ?_⟩
    · intro k hk
      exact absurd hk (Nat.not_lt_zero k)
    · intro h
      exact absurd h (lt_irrefl 0)
  | succ fuel ih =>
    intro d
    cases hfind : sl.find? (fun l => l.date == formatDate d) with
    | none =>
      have hn : streakLoopCommon sl d (fuel + 1) = 0 := by
        simp [streakLoopCommon, hfind]
      have hno : completedOn logs d.day = false := by
        cases hcomp : completedOn logs d.day with
        | false => rfl
        | true =>
          obtain ⟨l, hl, hld⟩ := (hmem d.day).mp hcomp
          have := List.find?_eq_none.mp hfind l hl
          simp [formatDate, hld] at this
      rw [hn]
      refine ⟨Nat.zero_le _, ?_, ?_⟩
      · intro k hk
        exact absurd hk (Nat.not_lt_zero k)
      · intro _
        simpa using hno
    | some log =>
      have hmemlog : log ∈ sl := List.mem_of_find?_eq_some hfind
      have hc : log.completed = true := hall log hmemlog
      have hn : streakLoopCommon sl d (fuel + 1)
          = streakLoopCommon sl { d with day := d.day - 1 } fuel + 1 := by
        simp [streakLoopCommon, hfind, hc]
      have hhit : completedOn logs d.day = true := by
        apply (hmem d.day).mpr
        refine ⟨log, hmemlog, ?_⟩
        have := List.find?_some hfind
        simpa [formatDate] using this
      obtain ⟨ih1, ih2, ih3⟩ := ih { d with day := d.day - 1 }
      rw [hn]
      refine ⟨by omega, ?_, ?_⟩
      · intro k hk
        cases k with
        | zero =>
          simpa using hhit
        | succ j =>
          have hj : j < streakLoopCommon sl { d with day := d.day - 1 } fuel := by omega
          have hprev : completedOn logs (d.day - 1 - (j : Int)) = true := ih2 j hj
          have hidx : d.day - 1 - (j : Int) = d.day - ((j + 1 : Nat) : Int) := by
            push_cast
            ring
          rwa [hidx] at hprev
      · intro hlt
        have hlt' : streakLoopCommon sl { d with day := d.day - 1 } fuel < fuel := by omega
        have hprev : completedOn logs
            (d.day - 1 - (streakLoopCommon sl { d with day := d.day - 1 } fuel : Int))
            = false := ih3 hlt'
        have hidx : d.day - 1 - (streakLoopCommon sl { d with day := d.day - 1 } fuel : Int)
            = d.day - ((streakLoopCommon sl { d with day := d.day - 1 } fuel + 1 : Nat) : Int) := by
          push_cast
          ring
        rwa [hidx] at hprev

/-- Claim C1: for every list of habit log entries (in any order) and every
fixed today, the streak calculator returns the count `n` of consecutive
calendar days, walking backward starting from today, for which a completed log
entry exists — every scanned day is completed, the scan stops at the first day
with no completed entry, and at most 90 days are scanned; in particular an
empty list yields 0, today not completed yields 0, and 90 consecutive
completions yield exactly 90 regardless of anything further back. -/
theorem claim1_streak_characterization (now : JSDate) (logs : List LogEntry) :
    calculateCurrentStreakCommon now logs ≤ 90 ∧
    (∀ k < calculateCurrentStreakCommon now logs,
      completedOn logs (now.day - (k : Int)) = true) ∧
    (calculateCurrentStreakCommon now logs < 90 →
      completedOn logs (now.day - (calculateCurrentStreakCommon now logs : Int)) = false) ∧
    (logs = [] → calculateCurrentStreakCommon now logs = 0) ∧
    (completedOn logs now.day = false → calculateCurrentStreakCommon now logs = 0) ∧
    ((∀ k : Nat, k < 90 → completedOn logs (now.day - (k : Int)) = true) →
      calculateCurrentStreakCommon now logs = 90) := by
  by_cases hemp : logs.isEmpty
  · have hnil : logs = [] := List.isEmpty_iff.mp hemp
    subst hnil
    refine ⟨by simp [calculateCurrentStreakCommon], ?_, ?_, fun _ => rfl, fun _ => rfl, ?_⟩
    · intro k hk
      simp [calculateCurrentStreakCommon] at hk
    · intro _
      rfl
    · intro hall
      have := hall 0 (by omega)
      simp [completedOn] at this
  · have heq : calculateCurrentStreakCommon now logs
        = streakLoopCommon ((logs.filter (fun l => l.completed)).mergeSort
            (fun a b => decide (b.date ≤ a.date))) (setMidnight now) 90 := by
      simp [calculateCurrentStreakCommon, hemp]
    obtain ⟨h1, h2, h3⟩ := streakLoopCommon_spec logs
      ((logs.filter (fun l => l.completed)).mergeSort (fun a b => decide (b.date ≤ a.date)))
      (sorted_all_completed logs) (completedOn_iff_sorted_mem logs) 90 (setMidnight now)
    have hday : (setMidnight now).day = now.day := rfl
    rw [hday] at h2 h3
    rw [heq]
    refine ⟨h1, h2, h3, ?_, ?_, ?_⟩
    · intro hnil
      rw [hnil] at hemp
      exact absurd rfl hemp
    · intro hnc
      by_contra hne0
      have hpos : 0 < streakLoopCommon ((logs.filter (fun l => l.completed)).mergeSort
          (fun a b => decide (b.date ≤ a.date))) (setMidnight now) 90 :=
        Nat.pos_of_ne_zero hne0
      have htrue := h2 0 hpos
      simp only [Nat.cast_zero, sub_zero] at htrue
      rw [hnc] at htrue
      cases htrue
    · intro hall
      by_contra hne
      have hlt : streakLoopCommon ((logs.filter (fun l => l.completed)).mergeSort
          (fun a b => decide (b.date ≤ a.date))) (setMidnight now) 90 < 90 := by
        omega
      have hfalse := h3 hlt
      have htrue := hall (streakLoopCommon ((logs.filter (fun l => l.completed)).mergeSort
          (fun a b => decide (b.date ≤ a.date))) (setMidnight now) 90) hlt
      rw [htrue] at hfalse
      cases hfalse

/-- Witness for claim C1: a log completed only yesterday (day 1, with today
being day 0 at five milliseconds past midnight) gives streak 0, via the
today-not-completed clause of the characterization. -/
theorem claim1_witness :
    calculateCurrentStreakCommon ⟨0, 5⟩ [⟨1, true⟩] = 0 :=
  (claim1_streak_characterization ⟨0, 5⟩ [⟨1, true⟩]).2.2.2.2.1 (by decide)

end HabitApp
